import Mathlib

/-!
Verification of the qfology analysis route (app/api/analyze/route.ts).

The route is an orchestration pipeline: content fetch, LLM entity
extraction, competitor discovery, batched competitor analysis, cross-site
aggregation and response assembly, plus a TTL in-memory cache.  Every
external effect (HTTP fetch, LLM call, search API) is consumed through an
oracle record `Env`; the pure computations of the route (JSON-span
extraction, entity cleaning, aggregation arithmetic, cache logic, batching,
response assembly) are embedded directly.  JavaScript numbers are modelled
as Nat/Int (all values reaching the modelled arithmetic are integers;
JSON.parse cannot produce NaN), Math.round on the non-negative rationals
used here as floor((200*n + t) / (2*t)) for round(n/t*100).
-/

namespace Qfology

/-- Models Math.round((size / total) * 100) for natural size and total:
round half away from zero on a non-negative rational, computed exactly. -/
def jsRoundPct (size total : Nat) : Nat :=
  (200 * size + total) / (2 * total)

/-- ASCII lower-casing of one character, as String.prototype.toLowerCase
acts on the ASCII range that the analysis pipeline produces. -/
def lowerChar (c : Char) : Char :=
  if 'A' ≤ c && c ≤ 'Z' then Char.ofNat (c.toNat + 32) else c

/-- Models String.prototype.toLowerCase. -/
def jsToLower (s : String) : String :=
  String.mk (s.data.map lowerChar)

/-- Whitespace as trimmed by String.prototype.trim. -/
def isWsChar (c : Char) : Bool := c.isWhitespace

/-- Models String.prototype.trim on the character list. -/
def jsTrimList (l : List Char) : List Char :=
  ((l.dropWhile isWsChar).reverse.dropWhile isWsChar).reverse

/-- Models String.prototype.trim. -/
def jsTrim (s : String) : String :=
  String.mk (jsTrimList s.data)

/-- Models the JavaScript idiom (x || d) on an optional string: undefined
and the empty string are falsy and give the default. -/
def jsOrStr (o : Option String) (d : String) : String :=
  match o with
  | some s => if s.isEmpty then d else s
  | none => d

/-- The opening brace character. -/
def lbrace : Char := Char.ofNat 123

/-- The closing brace character. -/
def rbrace : Char := Char.ofNat 125

/-- Keeps the first occurrence of each element, dropping later duplicates:
the key order of a JavaScript Map filled by insertion. -/
def firstDedupAux (seen : List String) : List String → List String
  | [] => []
  | x :: xs =>
    if x ∈ seen then firstDedupAux seen xs
    else x :: firstDedupAux (x :: seen) xs

/-- First-occurrence deduplication, as Map and Set iteration order. -/
def firstDedup (l : List String) : List String :=
  firstDedupAux [] l

/-- Stable insertion used to model Array.prototype.sort with a numeric
comparator: the new element goes before the first element that must come
after it, so equal elements keep their original order. -/
def insertOrd (bef : α → α → Bool) (x : α) : List α → List α
  | [] => [x]
  | y :: ys => if bef x y then x :: y :: ys else y :: insertOrd bef x ys

/-- Stable sort modelling Array.prototype.sort with a comparator: bef x y
is true when the comparator orders x strictly before y. -/
def sortOrd (bef : α → α → Bool) (l : List α) : List α :=
  l.foldl (fun acc x => insertOrd bef x acc) []

/-- Comparator (a, b) => key b - key a: sort descending by key, stable. -/
def sortDescBy (key : α → Nat) (l : List α) : List α :=
  sortOrd (fun a b => decide (key b < key a)) l

/-- Comparator (a, b) => key a - key b: sort ascending by key, stable. -/
def sortAscBy (key : α → Nat) (l : List α) : List α :=
  sortOrd (fun a b => decide (key a < key b)) l

/-- An extracted business entity (interface Entity). confidence is a JS
number; the values the pipeline handles are integral. -/
structure Entity where
  name : String
  confidence : Int
  category : Option String
deriving DecidableEq

/-- interface CompetitorResult: a discovered competitor link, optionally
extended by analysis. -/
structure CompetitorResult where
  url : String
  title : String
  snippet : String
  position : Nat
  entities : Option (List Entity)
  analysis : Option String
  error : Option String
  success : Bool
deriving DecidableEq

/-- interface AnalysisResult: one record per requested URL. -/
structure AnalysisResult where
  url : String
  entities : List Entity
  searchPhrase : String
  summary : String
  competitors : Option (List CompetitorResult)
  originalContent : Option String
deriving DecidableEq

/-- One commonEntities entry of MarketIntelligence. -/
structure FreqEntry where
  name : String
  frequency : Nat
deriving DecidableEq

/-- One industryDistribution entry of MarketIntelligence. -/
structure CatEntry where
  category : String
  count : Nat
deriving DecidableEq

/-- One competitiveGaps entry of MarketIntelligence. -/
structure GapEntry where
  entity : String
  coverage : Nat
deriving DecidableEq

/-- One uniquePositioning entry of MarketIntelligence. -/
structure UniquePos where
  url : String
  uniqueEntities : List String
deriving DecidableEq

/-- interface MarketIntelligence. -/
structure MarketIntelligence where
  commonEntities : List FreqEntry
  industryDistribution : List CatEntry
  competitiveGaps : List GapEntry
  uniquePositioning : List UniquePos
deriving DecidableEq

/-- The record stored in the cache for a URL: the analysis minus any
competitor data (the object built at route.ts lines 358-364). -/
structure CachedRecord where
  url : String
  entities : List Entity
  searchPhrase : String
  summary : String
  originalContent : String
deriving DecidableEq

/-- One value of the cache Map: { data, timestamp }. -/
structure CacheEntry where
  data : CachedRecord
  timestamp : Nat
deriving DecidableEq

/-- The in-memory cache Map, as an association list with unique keys. -/
abbrev Cache := List (String × CacheEntry)

/-- CACHE_TTL = 10 * 60 * 1000 milliseconds. -/
def CACHE_TTL : Nat := 10 * 60 * 1000

/-- Map.prototype.get on the cache. -/
def cacheGetEntry : Cache → String → Option CacheEntry
  | [], _ => none
  | (k, e) :: rest, key => if k = key then some e else cacheGetEntry rest key

/-- Map.prototype.delete on the cache. -/
def cacheDelete : Cache → String → Cache
  | [], _ => []
  | (k, e) :: rest, key =>
    if k = key then cacheDelete rest key else (k, e) :: cacheDelete rest key

/-- getFromCache: return the data when an entry exists and now - timestamp
is under the TTL; otherwise delete the key and report absent.  The second
component is the cache as the call leaves it. -/
def getFromCache (now : Nat) (c : Cache) (key : String) :
    Option CachedRecord × Cache :=
  match cacheGetEntry c key with
  | some e =>
    if now - e.timestamp < CACHE_TTL then (some e.data, c)
    else (none, cacheDelete c key)
  | none => (none, cacheDelete c key)

/-- setCache: store the value with the current timestamp, unconditionally
overwriting any entry for the key. -/
def setCache (now : Nat) (c : Cache) (key : String) (d : CachedRecord) :
    Cache :=
  (key, ⟨d, now⟩) :: cacheDelete c key

/-- One entity object of the JSON the LLM returned, before validation:
fields may be missing, and confidence may be a non-number (None). -/
structure RawEntity where
  name : Option String
  confidence : Option Int
  category : Option String
deriving DecidableEq

/-- The filter (e) => e.name && typeof e.confidence === "number": the name
must be present and truthy, the confidence a number. -/
def goodRaw (e : RawEntity) : Bool :=
  !(e.name.getD (String.mk [])).isEmpty && e.confidence.isSome

/-- The map step of analyzeWithGemini: trim the name, clamp the confidence
with Math.min(95, Math.max(60, c)), default the category to Other. -/
def cleanEntity (e : RawEntity) : Entity :=
  { name := jsTrim (e.name.getD (String.mk []))
    confidence := min 95 (max 60 (e.confidence.getD 0))
    category := some (jsOrStr e.category ("Other")) }

/-- The entity post-processing of analyzeWithGemini (route.ts 154-160):
drop invalid entities, then clean each survivor. -/
def cleanEntities (raw : List RawEntity) : List Entity :=
  (raw.filter goodRaw).map cleanEntity

/-- Helper for the greedy regex match: the prefix of the list that ends at
the last closing brace, or none when the list has no closing brace. -/
def takeToLastClose : List Char → Option (List Char)
  | [] => none
  | c :: rest =>
    match takeToLastClose rest with
    | some t => some (c :: t)
    | none => if c = rbrace then some [c] else none

/-- text.match(/\x7b[\s\S]*\x7d/): the leftmost greedy match runs from the
first opening brace to the last closing brace of the whole text.  none
models the route throwing: no JSON found in response. -/
def matchBraceSpan : List Char → Option (List Char)
  | [] => none
  | c :: rest =>
    if c = lbrace then
      match takeToLastClose rest with
      | some t => some (lbrace :: t)
      | none => matchBraceSpan rest
    else matchBraceSpan rest

/-- Modelled from the spec: locate the first balanced brace span by bracket
counting (spec sections 4.2 and 9); this consumes characters inside d open
braces and returns everything up to the close of the outermost one. -/
def closeRun (d : Nat) : List Char → Option (List Char)
  | [] => none
  | c :: rest =>
    if c = lbrace then (closeRun (d + 1) rest).map (fun t => c :: t)
    else if c = rbrace then
      if d ≤ 1 then some [c] else (closeRun (d - 1) rest).map (fun t => c :: t)
    else (closeRun d rest).map (fun t => c :: t)

/-- Modelled from the spec: the first balanced brace-delimited substring of
the text, found by bracket counting from the first opening brace. -/
def firstBalancedSpan : List Char → Option (List Char)
  | [] => none
  | c :: rest =>
    if c = lbrace then (closeRun 1 rest).map (fun t => lbrace :: t)
    else firstBalancedSpan rest

/-- The outcome of the primary Fetch plus Extract stage for one URL: the
fetched content together with the cleaned analysis, or the message of the
error the stage threw. -/
structure PrimaryAnalysis where
  content : String
  entities : List Entity
  searchPhrase : String
  summary : String
deriving DecidableEq

/-- The oracle for every external effect of one request: the clock, the
request flags and credentials, and the three remote pipelines (primary
fetch+extract, competitor discovery, competitor fetch+extract). -/
structure Env where
  now : Nat
  shouldFindCompetitors : Bool
  serpConfigured : Bool
  primary : String → Except String PrimaryAnalysis
  discover : String → Except String (List CompetitorResult)
  compAnalyze : String → Except String (List Entity × String)

/-- analyzeCompetitor (route.ts 210-228): run fetch+extract on the stub
URL; on success attach entities and summary with success = true, on any
failure record the message with success = false.  Total: the try/catch
means a record always comes back. -/
def analyzeCompetitor (env : Env) (stub : CompetitorResult) :
    CompetitorResult :=
  match env.compAnalyze stub.url with
  | .ok r =>
    { stub with entities := some r.1, analysis := some r.2, success := true }
  | .error msg => { stub with error := some msg, success := false }

/-- The batching loop (route.ts 386-395): slices of batchSize = 3 taken in
order.  The awaited results of each batch are appended in order. -/
def chunks3 : List α → List (List α)
  | [] => []
  | [a] => [[a]]
  | [a, b] => [[a, b]]
  | a :: b :: c :: rest => [a, b, c] :: chunks3 rest

/-- The competitor stage of POST (route.ts 378-395): analyze at most the
first 10 stubs, in batches of 3, concatenating the batch results. -/
def processCompetitors (env : Env) (stubs : List CompetitorResult) :
    List CompetitorResult :=
  (chunks3 ((stubs.take 10).map (analyzeCompetitor env))).flatten

/-- One (lowercased name, category, owning url) tuple of the aggregator
entity pool. -/
structure EntTup where
  name : String
  category : String
  url : String
deriving DecidableEq

/-- The allEntities pool (route.ts 234-258): every entity of every primary
result, and every entity of every competitor that carries an entity list,
as (lowercased name, category-or-Other, owning url) tuples. -/
def allEntitiesOf (results : List AnalysisResult) : List EntTup :=
  results.flatMap (fun r =>
    r.entities.map (fun e =>
      ⟨jsToLower e.name, jsOrStr e.category ("Other"), r.url⟩)
    ++ (r.competitors.getD []).flatMap (fun comp =>
      (comp.entities.getD []).map (fun e =>
        ⟨jsToLower e.name, jsOrStr e.category ("Other"), comp.url⟩)))

/-- entityCounts.get(name): the distinct owning URLs of a lowercased name,
in insertion order (a JavaScript Set). -/
def urlsFor (pool : List EntTup) (name : String) : List String :=
  firstDedup ((pool.filter (fun t => decide (t.name = name))).map
    (fun t => t.url))

/-- generateMarketIntelligence (route.ts 230-321). -/
def generateMarketIntelligence (results : List AnalysisResult) :
    MarketIntelligence :=
  let pool := allEntitiesOf results
  let totalSites := results.length
  let names := firstDedup (pool.map (fun t => t.name))
  let commonEntities :=
    (sortDescBy (fun e => e.frequency)
      ((names.map (fun n =>
        FreqEntry.mk n (jsRoundPct (urlsFor pool n).length totalSites))).filter
        (fun e => decide (40 ≤ e.frequency)))).take 10
  let cats := firstDedup (pool.map (fun t => t.category))
  let industryDistribution :=
    sortDescBy (fun e => e.count)
      (cats.map (fun c =>
        CatEntry.mk c ((pool.filter (fun t => decide (t.category = c))).length)))
  let competitiveGaps :=
    (sortAscBy (fun g => g.coverage)
      ((names.map (fun n =>
        GapEntry.mk n (jsRoundPct (urlsFor pool n).length totalSites))).filter
        (fun g => decide (20 ≤ g.coverage) && decide (g.coverage ≤ 30)))).take 10
  let uniquePositioning :=
    (results.map (fun r =>
      UniquePos.mk r.url
        (((r.entities.filter (fun e =>
          decide ((urlsFor pool (jsToLower e.name)).length ≤ 2))).map
          (fun e => e.name)).take 5))).filter
      (fun p => !p.uniqueEntities.isEmpty)
  ⟨commonEntities, industryDistribution, competitiveGaps, uniquePositioning⟩

/-- The cache record built on a cache miss (route.ts 358-364): the five
fields url, entities, searchPhrase, summary, originalContent and no
competitor data. -/
def mkCached (url : String) (pa : PrimaryAnalysis) : CachedRecord :=
  ⟨url, pa.entities, pa.searchPhrase, pa.summary, pa.content⟩

/-- The shallow copy { ...cachedResult } taken before competitor data is
attached (route.ts 369): an AnalysisResult with no competitors field. -/
def baseResult (cr : CachedRecord) : AnalysisResult :=
  ⟨cr.url, cr.entities, cr.searchPhrase, cr.summary, none,
    some cr.originalContent⟩

/-- The competitor section of POST (route.ts 372-404): when requested and
the search credential is configured, discover competitors and attach the
batched analysis; a discovery failure is swallowed and the primary result
returned unchanged. -/
def attachCompetitors (env : Env) (cr : CachedRecord) : AnalysisResult :=
  if env.shouldFindCompetitors && env.serpConfigured then
    match env.discover cr.searchPhrase with
    | .ok stubs =>
      { baseResult cr with competitors := some (processCompetitors env stubs) }
    | .error _ => baseResult cr
  else baseResult cr

/-- The degraded placeholder pushed when the primary stage throws
(route.ts 410-417). -/
def degradedResult (url msg : String) : AnalysisResult :=
  ⟨url, [], String.mk [], String.append ("Analysis failed: ") msg, some [],
    some (String.mk [])⟩

/-- The cache key for a URL (route.ts 350). -/
def cacheKey (url : String) : String :=
  String.append ("analysis:") url

/-- The body of the per-URL loop of POST (route.ts 348-418): cache lookup;
on a miss run the primary stage and cache its record, or degrade on its
failure; then attach competitor data to a copy of the record. -/
def processUrl (env : Env) (c : Cache) (url : String) :
    Cache × AnalysisResult :=
  let looked := getFromCache env.now c (cacheKey url)
  match looked.1 with
  | some cr => (looked.2, attachCompetitors env cr)
  | none =>
    match env.primary url with
    | .ok pa =>
      let cr := mkCached url pa
      (setCache env.now looked.2 (cacheKey url) cr, attachCompetitors env cr)
    | .error msg => (looked.2, degradedResult url msg)

/-- The per-URL loop of POST: sequential over the urls array, threading
the cache, collecting one result per URL. -/
def runLoop (env : Env) : Cache → List String → Cache × List AnalysisResult
  | c, [] => (c, [])
  | c, url :: rest =>
    let step := processUrl env c url
    let tail := runLoop env step.1 rest
    (tail.1, step.2 :: tail.2)

/-- The guard of market-intelligence generation (route.ts 423):
results.length > 1, or exactly one result whose competitors array exists
and is non-empty. -/
def condMI (results : List AnalysisResult) : Bool :=
  decide (1 < results.length) ||
    (decide (results.length = 1) &&
      match results.head? with
      | some r => decide (0 < (r.competitors.getD []).length)
      | none => false)

/-- The metadata object of the 200 response (route.ts 434-439). -/
structure Metadata where
  totalUrls : Nat
  successfulAnalyses : Nat
  competitorAnalysisEnabled : Bool
deriving DecidableEq

/-- The 200 response body of POST (route.ts 431-440). -/
structure ApiResponse where
  results : List AnalysisResult
  marketIntelligence : Option MarketIntelligence
  metadata : Metadata

/-- POST after validation (route.ts 345-440): run the per-URL loop, then
generate market intelligence under its guard, then assemble the response.
successfulAnalyses counts the results whose entities list is non-empty. -/
def runPOST (env : Env) (c : Cache) (urls : List String) :
    Cache × ApiResponse :=
  let looped := runLoop env c urls
  let results := looped.2
  let mi :=
    if condMI results then some (generateMarketIntelligence results) else none
  (looped.1,
    ⟨results, mi,
      ⟨urls.length,
        (results.filter (fun r => decide (0 < r.entities.length))).length,
        env.shouldFindCompetitors && env.serpConfigured⟩⟩)

/-- The single-site input whose competitor carries the same entity: the
aggregator reports a 200 percent frequency for it. -/
def cexResults : List AnalysisResult :=
  [⟨("a"), [⟨("x"), 80, some ("Other")⟩], ("p"), ("s"),
    some [⟨("b"), ("t"), ("sn"), 1, some [⟨("x"), 80, some ("Other")⟩],
      none, none, true⟩], none⟩]

/-- Two primary results sharing one entity and carrying no competitor
data: a concrete input for the aggregator invariants. -/
def resultsW1 : List AnalysisResult :=
  [⟨("a"), [⟨("x"), 80, none⟩], ("p"), ("s"), none, none⟩,
   ⟨("b"), [⟨("x"), 70, none⟩], ("p"), ("s"), none, none⟩]

/-- The raw entity list of the clamping witness: confidences 150 and 10,
one entity without a name and one with a non-numeric confidence. -/
def rawW : List RawEntity :=
  [⟨some ("A"), some 150, none⟩, ⟨some ("B"), some 10, none⟩,
    ⟨none, some 70, none⟩, ⟨some ("C"), none, none⟩]

/-- A primary analysis used by concrete oracle environments. -/
def paW : PrimaryAnalysis :=
  ⟨("content"), [⟨("X"), 80, some ("Tech")⟩], ("phrase"), ("sum")⟩

/-- Two discovered competitor stubs for the analyzer witness. -/
def stubsW : List CompetitorResult :=
  [⟨("c1"), ("t"), ("s"), 1, none, none, none, false⟩,
    ⟨("c2"), ("t"), ("s"), 2, none, none, none, false⟩]

/-- An oracle whose competitor analysis succeeds on c1 and fails on
c2. -/
def envW6 : Env :=
  ⟨0, true, true, fun _ => Except.ok paW, fun _ => Except.ok stubsW,
    fun u => if u = ("c1") then Except.ok ([], ("sum")) else
      Except.error ("fetch failed")⟩

/-- The record a cache witness stores. -/
def crW : CachedRecord :=
  ⟨("u"), [], String.mk [], String.mk [], String.mk []⟩

/-- An oracle whose single discovered competitor fails analysis: primary
succeeds, discovery returns one stub, competitor analysis throws. -/
def envMI : Env :=
  ⟨0, true, true, fun _ => Except.ok paW,
    fun _ => Except.ok [⟨("c1"), ("t"), ("sn"), 1, none, none, none,
      false⟩],
    fun _ => Except.error ("boom")⟩

/-- An oracle whose primary stage always fails with HTTP 404. -/
def envFail : Env :=
  ⟨0, false, false, fun _ => Except.error ("HTTP 404"),
    fun _ => Except.error ("no key"), fun _ => Except.error ("no key")⟩

/-- No result of the list carries competitor-sourced entities: every
competitor record either has no entities field or an empty one. -/
abbrev noCompEntities (results : List AnalysisResult) : Prop :=
  ∀ r ∈ results, ∀ comp ∈ r.competitors.getD [], comp.entities.getD [] = []

/-- The response text a{1}b} (braces written as characters): prose, a
balanced one-character object, prose, and a stray closing brace. -/
def cexSpanInput : List Char :=
  [Char.ofNat 97, lbrace, Char.ofNat 49, rbrace, Char.ofNat 98, rbrace]

/-- The returned record agrees with a cached record on all five cached
fields: they are equal on everything the cache stores. -/
abbrev sharesFields (cr : CachedRecord) (r : AnalysisResult) : Prop :=
  r.url = cr.url ∧ r.entities = cr.entities ∧
    r.searchPhrase = cr.searchPhrase ∧ r.summary = cr.summary ∧
    r.originalContent = some cr.originalContent

/-- An oracle with competitor discovery not requested: the primary stage
succeeds and no competitor section runs. -/
def envNoComp : Env :=
  ⟨0, false, true, fun _ => Except.ok paW,
    fun _ => Except.error ("unused"), fun _ => Except.error ("unused")⟩

/-- Membership in the first-occurrence deduplication with a seen set. -/
theorem mem_firstDedupAux (a : String) :
    ∀ (l seen : List String), a ∈ firstDedupAux seen l ↔ a ∈ l ∧ a ∉ seen := by
  intro l
  induction l with
  | nil => intro seen; simp [firstDedupAux]
  | cons x xs ih =>
    intro seen
    by_cases hx : x ∈ seen
    · rw [firstDedupAux, if_pos hx, ih]
      constructor
      · rintro ⟨h1, h2⟩; exact ⟨List.mem_cons_of_mem _ h1, h2⟩
      · rintro ⟨h1, h2⟩
        rcases List.mem_cons.mp h1 with rfl | h1
        · exact absurd hx h2
        · exact ⟨h1, h2⟩
    · rw [firstDedupAux, if_neg hx]
      simp only [List.mem_cons, ih]
      constructor
      · rintro (rfl | ⟨h1, h2⟩)
        · exact ⟨Or.inl rfl, hx⟩
        · exact ⟨Or.inr h1, fun hs => h2 (Or.inr hs)⟩
      · rintro ⟨h1, h2⟩
        by_cases hax : a = x
        · exact Or.inl hax
        · rcases h1 with rfl | h1
          · exact Or.inl rfl
          · exact Or.inr ⟨h1, fun hs => by
              rcases hs with h | h
              · exact hax h
              · exact h2 h⟩

/-- Membership is preserved by first-occurrence deduplication. -/
theorem mem_firstDedup (a : String) (l : List String) :
    a ∈ firstDedup l ↔ a ∈ l := by
  rw [firstDedup, mem_firstDedupAux]
  simp

/-- First-occurrence deduplication yields a duplicate-free list. -/
theorem nodup_firstDedupAux :
    ∀ (l seen : List String), (firstDedupAux seen l).Nodup := by
  intro l
  induction l with
  | nil => intro seen; simp [firstDedupAux]
  | cons x xs ih =>
    intro seen
    by_cases hx : x ∈ seen
    · rw [firstDedupAux, if_pos hx]; exact ih seen
    · rw [firstDedupAux, if_neg hx]
      refine List.Nodup.cons ?_ (ih _)
      intro hmem
      exact ((mem_firstDedupAux x xs (x :: seen)).mp hmem).2
        (List.mem_cons_self x seen)

/-- The deduplicated URL lists of the aggregator are duplicate-free. -/
theorem nodup_firstDedup (l : List String) : (firstDedup l).Nodup :=
  nodup_firstDedupAux l []

/-- Membership through the stable insertion step. -/
theorem mem_insertOrd (bef : α → α → Bool) (x a : α) :
    ∀ l, a ∈ insertOrd bef x l ↔ a = x ∨ a ∈ l := by
  intro l
  induction l with
  | nil => simp [insertOrd]
  | cons y ys ih =>
    rw [insertOrd]
    split
    · simp [List.mem_cons]
    · simp only [List.mem_cons, ih]
      tauto

/-- The stable insertion step preserves sortedness for a relation the
comparator decides. -/
theorem pairwise_insertOrd (R : α → α → Prop) (bef : α → α → Bool)
    (hbt : ∀ a b, bef a b = true → R a b)
    (hbf : ∀ a b, bef a b = false → R b a)
    (htr : ∀ a b c, R a b → R b c → R a c) (x : α) :
    ∀ l, l.Pairwise R → (insertOrd bef x l).Pairwise R := by
  intro l
  induction l with
  | nil => intro h; simp [insertOrd]
  | cons y ys ih =>
    intro h
    rw [List.pairwise_cons] at h
    rw [insertOrd]
    split
    case isTrue hb =>
      refine List.Pairwise.cons ?_ (List.Pairwise.cons h.1 h.2)
      intro b hb2
      rcases List.mem_cons.mp hb2 with rfl | hmem
      · exact hbt _ _ hb
      · exact htr _ _ _ (hbt _ _ hb) (h.1 _ hmem)
    case isFalse hb =>
      refine List.Pairwise.cons ?_ (ih h.2)
      intro b hb2
      rcases (mem_insertOrd bef x b ys).mp hb2 with rfl | hmem
      · exact hbf _ _ (Bool.not_eq_true _ ▸ hb)
      · exact h.1 _ hmem

/-- Membership through the modelled stable sort. -/
theorem mem_sortOrd (bef : α → α → Bool) (a : α) (l : List α) :
    a ∈ sortOrd bef l ↔ a ∈ l := by
  suffices h : ∀ (l acc : List α),
      a ∈ l.foldl (fun acc x => insertOrd bef x acc) acc ↔ a ∈ acc ∨ a ∈ l by
    rw [sortOrd, h]; simp
  intro l
  induction l with
  | nil => intro acc; simp
  | cons x xs ih =>
    intro acc
    rw [List.foldl_cons, ih, mem_insertOrd]
    simp only [List.mem_cons]
    tauto

/-- The modelled stable sort is sorted for a relation its comparator
decides. -/
theorem pairwise_sortOrd (R : α → α → Prop) (bef : α → α → Bool)
    (hbt : ∀ a b, bef a b = true → R a b)
    (hbf : ∀ a b, bef a b = false → R b a)
    (htr : ∀ a b c, R a b → R b c → R a c) (l : List α) :
    (sortOrd bef l).Pairwise R := by
  suffices h : ∀ (l acc : List α), acc.Pairwise R →
      (l.foldl (fun acc x => insertOrd bef x acc) acc).Pairwise R by
    exact h l [] List.Pairwise.nil
  intro l
  induction l with
  | nil => intro acc hacc; simpa
  | cons x xs ih =>
    intro acc hacc
    rw [List.foldl_cons]
    exact ih _ (pairwise_insertOrd R bef hbt hbf htr x acc hacc)

/-- The descending sort of the aggregator is sorted by its key. -/
theorem pairwise_sortDescBy (key : α → Nat) (l : List α) :
    (sortDescBy key l).Pairwise (fun a b => key b ≤ key a) := by
  refine pairwise_sortOrd _ _ ?_ ?_ ?_ l
  · intro a b h; exact Nat.le_of_lt (of_decide_eq_true h)
  · intro a b h; exact Nat.le_of_not_lt (of_decide_eq_false h)
  · intro a b c h1 h2; exact Nat.le_trans h2 h1

/-- The ascending sort of the aggregator is sorted by its key. -/
theorem pairwise_sortAscBy (key : α → Nat) (l : List α) :
    (sortAscBy key l).Pairwise (fun a b => key a ≤ key b) := by
  refine pairwise_sortOrd _ _ ?_ ?_ ?_ l
  · intro a b h; exact Nat.le_of_lt (of_decide_eq_true h)
  · intro a b h; exact Nat.le_of_not_lt (of_decide_eq_false h)
  · intro a b c h1 h2; exact Nat.le_trans h1 h2

/-- The batches of three concatenate back to the batched list: no element
is dropped or duplicated by the batching loop. -/
theorem chunks3_flatten : ∀ (l : List α), (chunks3 l).flatten = l
  | [] => rfl
  | [a] => by simp [chunks3]
  | [a, b] => by simp [chunks3]
  | a :: b :: c :: rest => by
    simp [chunks3, chunks3_flatten rest]

/-- The greedy tail scan fails exactly when no closing brace remains. -/
theorem takeToLastClose_eq_none {l : List Char} :
    takeToLastClose l = none ↔ rbrace ∉ l := by
  induction l with
  | nil => simp [takeToLastClose]
  | cons c rest ih =>
    cases h : takeToLastClose rest with
    | some t =>
      have hr : rbrace ∈ rest := by
        by_contra hn
        rw [← ih] at hn
        rw [hn] at h
        cases h
      simp [takeToLastClose, h, List.mem_cons, hr]
    | none =>
      by_cases hc : c = rbrace
      · subst hc
        simp [takeToLastClose, h]
      · simp [takeToLastClose, h, hc, ih.mp h, Ne.symm hc]

/-- A successful greedy tail scan returns a chunk that ends at the very
last closing brace: what follows holds no closing brace. -/
theorem takeToLastClose_eq_some {l u : List Char}
    (h : takeToLastClose l = some u) :
    ∃ q, l = u ++ q ∧ rbrace ∉ q ∧ u.getLast? = some rbrace := by
  induction l generalizing u with
  | nil => simp [takeToLastClose] at h
  | cons c rest ih =>
    rw [takeToLastClose] at h
    cases hr : takeToLastClose rest with
    | some t =>
      rw [hr] at h
      obtain rfl : c :: t = u := by injection h
      obtain ⟨q, hq, hnq, hlast⟩ := ih hr
      refine ⟨q, by rw [hq]; rfl, hnq, ?_⟩
      cases t with
      | nil => cases hlast
      | cons t0 ts => rw [List.getLast?_cons_cons]; exact hlast
    | none =>
      rw [hr] at h
      by_cases hc : c = rbrace
      · rw [if_pos hc] at h
        obtain rfl : [c] = u := by injection h
        subst hc
        exact ⟨rest, rfl, takeToLastClose_eq_none.mp hr, rfl⟩
      · rw [if_neg hc] at h
        cases h

/-- A successful greedy match runs from the first opening brace of the
text to its last closing brace: no opening brace before it, no closing
brace after it, and the span itself is brace-delimited. -/
theorem matchBraceSpan_eq_some {s t : List Char}
    (h : matchBraceSpan s = some t) :
    ∃ p q, s = p ++ t ++ q ∧ lbrace ∉ p ∧ rbrace ∉ q ∧
      t.head? = some lbrace ∧ t.getLast? = some rbrace := by
  induction s generalizing t with
  | nil => simp [matchBraceSpan] at h
  | cons c rest ih =>
    rw [matchBraceSpan] at h
    by_cases hc : c = lbrace
    · rw [if_pos hc] at h
      cases hr : takeToLastClose rest with
      | some u =>
        rw [hr] at h
        obtain rfl : lbrace :: u = t := by injection h
        obtain ⟨q, hq, hnq, hlast⟩ := takeToLastClose_eq_some hr
        subst hc
        refine ⟨[], q, by rw [hq]; rfl, by simp, hnq, rfl, ?_⟩
        cases u with
        | nil => cases hlast
        | cons u0 us => rw [List.getLast?_cons_cons]; exact hlast
      | none =>
        rw [hr] at h
        obtain ⟨p, q, hs, hp, hq2, hh, hl⟩ := ih h
        exfalso
        refine takeToLastClose_eq_none.mp hr ?_
        rw [hs]
        have : rbrace ∈ t := List.mem_of_mem_getLast? (by rw [hl]; rfl)
        simp [this]
    · rw [if_neg hc] at h
      obtain ⟨p, q, hs, hp, hq2, hh, hl⟩ := ih h
      refine ⟨c :: p, q, by rw [hs]; rfl, ?_, hq2, hh, hl⟩
      intro hmem
      rcases List.mem_cons.mp hmem with heq | hmem2
      · exact hc heq.symm
      · exact hp hmem2

/-- A text opening with a brace whose tail holds a closing brace
matches. -/
theorem matchBraceSpan_cons_lbrace {rest : List Char} (h : rbrace ∈ rest) :
    (matchBraceSpan (lbrace :: rest)).isSome = true := by
  cases hr : takeToLastClose rest with
  | none => exact absurd h (takeToLastClose_eq_none.mp hr)
  | some u => simp [matchBraceSpan, hr]

/-- Whenever the text holds an opening brace with a later closing brace,
the greedy match succeeds. -/
theorem matchBraceSpan_isSome (p m q : List Char) :
    (matchBraceSpan (p ++ lbrace :: m ++ rbrace :: q)).isSome = true := by
  induction p with
  | nil =>
    rw [List.nil_append]
    exact matchBraceSpan_cons_lbrace (by simp)
  | cons a p ih =>
    by_cases ha : a = lbrace
    · subst ha
      rw [List.cons_append]
      exact matchBraceSpan_cons_lbrace (by simp)
    · rw [List.cons_append]
      simp only [matchBraceSpan, if_neg ha]
      exact ih

/-- The commonEntities field of the aggregator, written out. -/
theorem commonEntities_eq (results : List AnalysisResult) :
    (generateMarketIntelligence results).commonEntities =
      (sortDescBy (fun e => e.frequency)
        (((firstDedup ((allEntitiesOf results).map (fun t => t.name))).map
          (fun n => FreqEntry.mk n
            (jsRoundPct (urlsFor (allEntitiesOf results) n).length
              results.length))).filter
          (fun e => decide (40 ≤ e.frequency)))).take 10 := rfl

/-- The competitiveGaps field of the aggregator, written out. -/
theorem competitiveGaps_eq (results : List AnalysisResult) :
    (generateMarketIntelligence results).competitiveGaps =
      (sortAscBy (fun g => g.coverage)
        (((firstDedup ((allEntitiesOf results).map (fun t => t.name))).map
          (fun n => GapEntry.mk n
            (jsRoundPct (urlsFor (allEntitiesOf results) n).length
              results.length))).filter
          (fun g => decide (20 ≤ g.coverage) &&
            decide (g.coverage ≤ 30)))).take 10 := rfl

/-- The modelled rounding of a fraction of the site total never exceeds
100 percent. -/
theorem jsRoundPct_le_100 {n t : Nat} (h : n ≤ t) : jsRoundPct n t ≤ 100 := by
  rcases Nat.eq_zero_or_pos t with rfl | ht
  · have hn : n = 0 := Nat.le_zero.mp h
    subst hn
    decide
  · rw [jsRoundPct]
    have h2 : 0 < 2 * t := by omega
    have := (Nat.div_lt_iff_lt_mul h2).mpr (show 200 * n + t < 101 * (2 * t) by omega)
    omega

/-- With a single site in the denominator, a non-zero distinct-URL count
rounds to at least 100 percent. -/
theorem jsRoundPct_ge_100 {n : Nat} (h : 1 ≤ n) : 100 ≤ jsRoundPct n 1 := by
  rw [jsRoundPct]
  have h2 : (0 : Nat) < 2 * 1 := by omega
  exact (Nat.le_div_iff_mul_le h2).mpr (by omega)

/-- The distinct-URL list of a name drawn from the pool is non-empty. -/
theorem urlsFor_length_pos {pool : List EntTup} {n : String}
    (hn : n ∈ firstDedup (pool.map (fun t => t.name))) :
    0 < (urlsFor pool n).length := by
  rw [mem_firstDedup] at hn
  obtain ⟨t, ht, rfl⟩ := List.mem_map.mp hn
  have h1 : t.url ∈ (pool.filter (fun s => decide (s.name = t.name))).map
      (fun s => s.url) :=
    List.mem_map.mpr ⟨t, List.mem_filter.mpr ⟨ht, by simp⟩, rfl⟩
  have h2 : t.url ∈ urlsFor pool t.name := by
    rw [urlsFor, mem_firstDedup]
    exact h1
  exact List.length_pos.mpr (fun he => by rw [he] at h2; cases h2)

/-- Without competitor entities, every tuple of the pool is owned by a
primary URL. -/
theorem pool_url_mem {results : List AnalysisResult}
    (h : noCompEntities results) {t : EntTup}
    (ht : t ∈ allEntitiesOf results) :
    t.url ∈ results.map (fun r => r.url) := by
  rw [allEntitiesOf, List.mem_flatMap] at ht
  obtain ⟨r, hr, hmem⟩ := ht
  rw [List.mem_append] at hmem
  rcases hmem with hmem | hmem
  · obtain ⟨e, he, rfl⟩ := List.mem_map.mp hmem
    exact List.mem_map.mpr ⟨r, hr, rfl⟩
  · rw [List.mem_flatMap] at hmem
    obtain ⟨comp, hcomp, hmem2⟩ := hmem
    rw [h r hr comp hcomp] at hmem2
    cases hmem2

/-- Without competitor entities, a name's distinct-URL count is bounded
by the number of primary results. -/
theorem urlsFor_length_le {results : List AnalysisResult}
    (h : noCompEntities results) (n : String) :
    (urlsFor (allEntitiesOf results) n).length ≤ results.length := by
  have hsub : urlsFor (allEntitiesOf results) n ⊆
      results.map (fun r => r.url) := by
    intro u hu
    rw [urlsFor, mem_firstDedup] at hu
    obtain ⟨t, ht, rfl⟩ := List.mem_map.mp hu
    exact pool_url_mem h (List.mem_filter.mp ht).1
  have hnd : (urlsFor (allEntitiesOf results) n).Nodup := nodup_firstDedup _
  calc (urlsFor (allEntitiesOf results) n).length
      ≤ (results.map (fun r => r.url)).length :=
        (List.subperm_of_subset hnd hsub).length_le
    _ = results.length := List.length_map _ _

/-- Membership in the truncated, descending-sorted, filtered list comes
from the unfiltered list and satisfies the filter. -/
theorem mem_of_mem_take_sortDescBy {key : α → Nat} {p : α → Bool}
    {l : List α} {k : Nat} {e : α}
    (h : e ∈ (sortDescBy key (l.filter p)).take k) : e ∈ l ∧ p e = true := by
  have h1 : e ∈ sortDescBy key (l.filter p) :=
    (List.take_sublist k _).subset h
  rw [sortDescBy, mem_sortOrd, List.mem_filter] at h1
  exact h1

/-- Membership in the truncated, ascending-sorted, filtered list comes
from the unfiltered list and satisfies the filter. -/
theorem mem_of_mem_take_sortAscBy {key : α → Nat} {p : α → Bool}
    {l : List α} {k : Nat} {e : α}
    (h : e ∈ (sortAscBy key (l.filter p)).take k) : e ∈ l ∧ p e = true := by
  have h1 : e ∈ sortAscBy key (l.filter p) :=
    (List.take_sublist k _).subset h
  rw [sortAscBy, mem_sortOrd, List.mem_filter] at h1
  exact h1

/-- C1: corrected.  As stated the claim is false: with competitor
entities in the pool a frequency can exceed 100 (see the counterexample).
What holds: when no competitor entities are present every frequency and
coverage is at most 100, and is exactly 100 for every common entity of a
single-site input; and competitiveGaps is empty whenever there is exactly
one primary result, competitors or not. -/
theorem freq_bounds_without_competitors (results : List AnalysisResult) :
    (noCompEntities results →
      (∀ e ∈ (generateMarketIntelligence results).commonEntities,
        e.frequency ≤ 100) ∧
      (∀ g ∈ (generateMarketIntelligence results).competitiveGaps,
        g.coverage ≤ 100) ∧
      (results.length = 1 →
        ∀ e ∈ (generateMarketIntelligence results).commonEntities,
          e.frequency = 100)) ∧
    (results.length = 1 →
      (generateMarketIntelligence results).competitiveGaps = []) := by
  constructor
  · intro h
    refine ⟨?_, ?_, ?_⟩
    · intro e he
      rw [commonEntities_eq] at he
      obtain ⟨hmem, _⟩ := mem_of_mem_take_sortDescBy he
      obtain ⟨n, hn, rfl⟩ := List.mem_map.mp hmem
      exact jsRoundPct_le_100 (urlsFor_length_le h n)
    · intro g hg
      rw [competitiveGaps_eq] at hg
      obtain ⟨hmem, _⟩ := mem_of_mem_take_sortAscBy hg
      obtain ⟨n, hn, rfl⟩ := List.mem_map.mp hmem
      exact jsRoundPct_le_100 (urlsFor_length_le h n)
    · intro hlen e he
      rw [commonEntities_eq] at he
      obtain ⟨hmem, _⟩ := mem_of_mem_take_sortDescBy he
      obtain ⟨n, hn, rfl⟩ := List.mem_map.mp hmem
      have h1 : 0 < (urlsFor (allEntitiesOf results) n).length :=
        urlsFor_length_pos hn
      have h2 := urlsFor_length_le h n
      rw [hlen] at h2
      have h3 : (urlsFor (allEntitiesOf results) n).length = 1 := by omega
      show jsRoundPct _ _ = 100
      rw [h3, hlen]
      decide
  · intro hlen
    rw [competitiveGaps_eq]
    have hfil : ((firstDedup
        ((allEntitiesOf results).map (fun t => t.name))).map
        (fun n => GapEntry.mk n
          (jsRoundPct (urlsFor (allEntitiesOf results) n).length
            results.length))).filter
        (fun g => decide (20 ≤ g.coverage) && decide (g.coverage ≤ 30))
        = [] := by
      rw [List.filter_eq_nil_iff]
      intro g hg
      obtain ⟨n, hn, rfl⟩ := List.mem_map.mp hg
      have h1 : 0 < (urlsFor (allEntitiesOf results) n).length :=
        urlsFor_length_pos hn
      have h2 : 100 ≤ jsRoundPct (urlsFor (allEntitiesOf results) n).length
          results.length := by
        rw [hlen]
        exact jsRoundPct_ge_100 h1
      simp only [Bool.and_eq_true, decide_eq_true_eq, not_and]
      intro _
      omega
    rw [hfil]
    rfl

/-- C1: counterexample.  One primary result (totalSites = 1) whose
competitor result carries the same entity name gives that entity two
distinct owning URLs, so its frequency is 200: above 100, and neither 0
nor 100, against both parts of the claim. -/
theorem freq_over_100_with_competitors :
    cexResults.length = 1 ∧
    (generateMarketIntelligence cexResults).commonEntities =
      [⟨("x"), 200⟩] ∧
    ∃ e ∈ (generateMarketIntelligence cexResults).commonEntities,
      100 < e.frequency ∧ e.frequency ≠ 0 ∧ e.frequency ≠ 100 := by
  refine ⟨rfl, by decide, ⟨⟨("x"), 200⟩, by decide, by decide, by decide,
    by decide⟩⟩

/-- C1: witness.  The bound and the empty-gaps conclusion evaluated at
concrete inputs through the theorem. -/
theorem freq_bounds_without_competitors_witness :
    (FreqEntry.mk ("x") 100).frequency ≤ 100 ∧
    (generateMarketIntelligence cexResults).competitiveGaps = [] :=
  ⟨((freq_bounds_without_competitors resultsW1).1 (by decide)).1 _ (by decide),
    (freq_bounds_without_competitors cexResults).2 (by decide)⟩

/-- C4: confirmed.  commonEntities holds only frequencies of at least 40,
descending and at most 10 entries; competitiveGaps holds only coverages
in [20, 30], ascending and at most 10 entries. -/
theorem marketIntel_lists_shape (results : List AnalysisResult) :
    (∀ e ∈ (generateMarketIntelligence results).commonEntities,
      40 ≤ e.frequency) ∧
    ((generateMarketIntelligence results).commonEntities).Pairwise
      (fun a b => b.frequency ≤ a.frequency) ∧
    (generateMarketIntelligence results).commonEntities.length ≤ 10 ∧
    (∀ g ∈ (generateMarketIntelligence results).competitiveGaps,
      20 ≤ g.coverage ∧ g.coverage ≤ 30) ∧
    ((generateMarketIntelligence results).competitiveGaps).Pairwise
      (fun a b => a.coverage ≤ b.coverage) ∧
    (generateMarketIntelligence results).competitiveGaps.length ≤ 10 := by
  refine ⟨?_, ?_, ?_, ?_, ?_, ?_⟩
  · intro e he
    rw [commonEntities_eq] at he
    obtain ⟨_, hp⟩ := mem_of_mem_take_sortDescBy he
    exact of_decide_eq_true hp
  · rw [commonEntities_eq]
    exact (pairwise_sortDescBy (fun e : FreqEntry => e.frequency) _).sublist
      (List.take_sublist 10 _)
  · rw [commonEntities_eq]
    exact List.length_take_le 10 _
  · intro g hg
    rw [competitiveGaps_eq] at hg
    obtain ⟨_, hp⟩ := mem_of_mem_take_sortAscBy hg
    rw [Bool.and_eq_true, decide_eq_true_eq, decide_eq_true_eq] at hp
    exact hp
  · rw [competitiveGaps_eq]
    exact (pairwise_sortAscBy (fun g : GapEntry => g.coverage) _).sublist
      (List.take_sublist 10 _)
  · rw [competitiveGaps_eq]
    exact List.length_take_le 10 _

/-- C4: witness.  The frequency bound and the length bound evaluated at a
concrete two-site input through the theorem. -/
theorem marketIntel_lists_shape_witness :
    40 ≤ (FreqEntry.mk ("x") 100).frequency ∧
    (generateMarketIntelligence resultsW1).commonEntities.length ≤ 10 :=
  ⟨(marketIntel_lists_shape resultsW1).1 _ (by decide),
    (marketIntel_lists_shape resultsW1).2.2.1⟩

/-- C2: confirmed.  Every entity the Extractor returns has confidence in
[60, 95]; every returned entity comes from a raw entity that passed the
name-and-numeric-confidence filter; and exactly the passing raw entities
are kept. -/
theorem extractor_confidence_clamped (raw : List RawEntity) :
    (∀ e ∈ cleanEntities raw, 60 ≤ e.confidence ∧ e.confidence ≤ 95) ∧
    (∀ e ∈ cleanEntities raw,
      ∃ r ∈ raw, goodRaw r = true ∧ e = cleanEntity r) ∧
    (cleanEntities raw).length = raw.countP goodRaw := by
  refine ⟨?_, ?_, ?_⟩
  · intro e he
    rw [cleanEntities] at he
    obtain ⟨r, hr, rfl⟩ := List.mem_map.mp he
    constructor
    · show (60 : Int) ≤ min 95 (max 60 (r.confidence.getD 0))
      omega
    · show min 95 (max 60 (r.confidence.getD 0)) ≤ (95 : Int)
      omega
  · intro e he
    rw [cleanEntities] at he
    obtain ⟨r, hr, rfl⟩ := List.mem_map.mp he
    obtain ⟨hr2, hp⟩ := List.mem_filter.mp hr
    exact ⟨r, hr2, hp, rfl⟩
  · rw [cleanEntities, List.length_map, List.countP_eq_length_filter]

/-- C2: witness.  The clamping bounds evaluated through the theorem at
the entity whose raw confidence was 150 (kept as 95), on a list that also
drops a nameless entity and a non-numeric confidence. -/
theorem extractor_confidence_clamped_witness :
    (60 ≤ (cleanEntity ⟨some ("A"), some 150, none⟩).confidence ∧
      (cleanEntity ⟨some ("A"), some 150, none⟩).confidence ≤ 95) ∧
    (cleanEntities rawW).length = rawW.countP goodRaw :=
  ⟨(extractor_confidence_clamped rawW).1 _ (by decide),
    (extractor_confidence_clamped rawW).2.2⟩

/-- C3: corrected (amended form).  A successful extraction returns the
span running from the first opening brace of the response to its very
last closing brace (the greedy regex match), which is brace-delimited;
and whenever the response holds an opening brace with a later closing
brace the extraction succeeds.  The claim's first-balanced-span selection
is refuted by the counterexample. -/
theorem brace_span_characterization (s : List Char) :
    (∀ t, matchBraceSpan s = some t →
      ∃ p q, s = p ++ t ++ q ∧ lbrace ∉ p ∧ rbrace ∉ q ∧
        t.head? = some lbrace ∧ t.getLast? = some rbrace) ∧
    (∀ p m q, s = p ++ lbrace :: m ++ rbrace :: q →
      (matchBraceSpan s).isSome = true) := by
  constructor
  · intro t h
    exact matchBraceSpan_eq_some h
  · intro p m q h
    rw [h]
    exact matchBraceSpan_isSome p m q

/-- C3: counterexample.  On the response a{1}b} the first balanced span
is {1}, but the Extractor's greedy regex selects {1}b}: the code does not
select the first balanced brace substring. -/
theorem greedy_span_not_first_balanced :
    firstBalancedSpan cexSpanInput = some [lbrace, Char.ofNat 49, rbrace] ∧
    matchBraceSpan cexSpanInput =
      some [lbrace, Char.ofNat 49, rbrace, Char.ofNat 98, rbrace] ∧
    matchBraceSpan cexSpanInput ≠ firstBalancedSpan cexSpanInput := by
  refine ⟨by decide, by decide, by decide⟩

/-- C3: witness.  Extraction succeeds on the counterexample text, whose
braces are at positions 1, 3 and 5, through the theorem. -/
theorem brace_span_characterization_witness :
    (matchBraceSpan cexSpanInput).isSome = true :=
  (brace_span_characterization cexSpanInput).2 [Char.ofNat 97]
    [Char.ofNat 49] [Char.ofNat 98, rbrace] (by decide)

/-- C6: confirmed.  The batched competitor stage analyzes exactly the
first 10 stubs, one output record per processed stub in order (the
batches of 3 concatenate losslessly), and every record carries success
with entities and analysis attached, or failure with an error message. -/
theorem analyzer_batches_complete (env : Env)
    (stubs : List CompetitorResult) :
    processCompetitors env stubs =
      (stubs.take 10).map (analyzeCompetitor env) ∧
    (processCompetitors env stubs).length = min 10 stubs.length ∧
    ∀ comp ∈ processCompetitors env stubs,
      (comp.success = true ∧ comp.entities.isSome ∧ comp.analysis.isSome) ∨
      (comp.success = false ∧ comp.error.isSome) := by
  have heq : processCompetitors env stubs =
      (stubs.take 10).map (analyzeCompetitor env) := by
    rw [processCompetitors, chunks3_flatten]
  refine ⟨heq, ?_, ?_⟩
  · rw [heq, List.length_map, List.length_take]
  · intro comp hmem
    rw [heq] at hmem
    obtain ⟨stub, _, rfl⟩ := List.mem_map.mp hmem
    rw [analyzeCompetitor]
    cases env.compAnalyze stub.url with
    | ok r => simp
    | error msg => simp

/-- C6: witness.  The shape of the failed record for stub c2, obtained
through the theorem at its membership in the processed list. -/
theorem analyzer_batches_complete_witness :
    ((analyzeCompetitor envW6 ⟨("c2"), ("t"), ("s"), 2, none, none, none,
      false⟩).success = true ∧
      (analyzeCompetitor envW6 ⟨("c2"), ("t"), ("s"), 2, none, none, none,
        false⟩).entities.isSome ∧
      (analyzeCompetitor envW6 ⟨("c2"), ("t"), ("s"), 2, none, none, none,
        false⟩).analysis.isSome) ∨
    ((analyzeCompetitor envW6 ⟨("c2"), ("t"), ("s"), 2, none, none, none,
      false⟩).success = false ∧
      (analyzeCompetitor envW6 ⟨("c2"), ("t"), ("s"), 2, none, none, none,
        false⟩).error.isSome) :=
  (analyzer_batches_complete envW6 stubsW).2.2 _ (by decide)

/-- Looking a key up after deleting it misses. -/
theorem cacheGetEntry_delete (c : Cache) (key : String) :
    cacheGetEntry (cacheDelete c key) key = none := by
  induction c with
  | nil => rfl
  | cons kv rest ih =>
    obtain ⟨k, e⟩ := kv
    by_cases hk : k = key
    · rw [cacheDelete, if_pos hk]
      exact ih
    · rw [cacheDelete, if_neg hk, cacheGetEntry, if_neg hk]
      exact ih

/-- C8: confirmed.  A Set followed by a Get strictly inside the TTL
window returns the stored record and leaves the cache unchanged; a Get
at or past the TTL reports absent and leaves no entry for the key; and a
Set stores the record with the write timestamp, overwriting whatever the
key held. -/
theorem cache_ttl_roundtrip (c : Cache) (key : String) (d : CachedRecord)
    (t0 t1 : Nat) :
    (t1 - t0 < CACHE_TTL →
      getFromCache t1 (setCache t0 c key d) key =
        (some d, setCache t0 c key d)) ∧
    (t0 + CACHE_TTL ≤ t1 →
      (getFromCache t1 (setCache t0 c key d) key).1 = none ∧
      cacheGetEntry (getFromCache t1 (setCache t0 c key d) key).2 key =
        none) ∧
    cacheGetEntry (setCache t0 c key d) key = some ⟨d, t0⟩ := by
  have hget : cacheGetEntry (setCache t0 c key d) key = some ⟨d, t0⟩ := by
    rw [setCache, cacheGetEntry, if_pos rfl]
  refine ⟨?_, ?_, hget⟩
  · intro hfresh
    rw [getFromCache, hget]
    simp only [if_pos hfresh]
  · intro hold
    have hstale : ¬(t1 - t0 < CACHE_TTL) := by omega
    rw [getFromCache, hget]
    simp only [if_neg hstale]
    refine ⟨?_, cacheGetEntry_delete _ _⟩
    trivial

/-- C8: witness.  A hit 5 milliseconds after the write and a miss exactly
at the TTL, both through the theorem. -/
theorem cache_ttl_roundtrip_witness :
    getFromCache 5 (setCache 0 [] (cacheKey ("u")) crW) (cacheKey ("u")) =
      (some crW, setCache 0 [] (cacheKey ("u")) crW) ∧
    (getFromCache CACHE_TTL (setCache 0 [] (cacheKey ("u")) crW)
      (cacheKey ("u"))).1 = none :=
  ⟨(cache_ttl_roundtrip [] (cacheKey ("u")) crW 0 5).1 (by decide),
    ((cache_ttl_roundtrip [] (cacheKey ("u")) crW 0 CACHE_TTL).2.1
      (by omega)).1⟩

/-- The per-URL loop returns one result per requested URL. -/
theorem runLoop_length (env : Env) :
    ∀ (urls : List String) (c : Cache),
      (runLoop env c urls).2.length = urls.length := by
  intro urls
  induction urls with
  | nil => intro c; rfl
  | cons url rest ih =>
    intro c
    rw [runLoop]
    simp only [List.length_cons, ih]

/-- The results of the assembled response are the loop's results. -/
theorem runPOST_results (env : Env) (c : Cache) (urls : List String) :
    (runPOST env c urls).2.results = (runLoop env c urls).2 := rfl

/-- The market intelligence of the assembled response follows the
guard. -/
theorem runPOST_mi (env : Env) (c : Cache) (urls : List String) :
    (runPOST env c urls).2.marketIntelligence =
      if condMI (runLoop env c urls).2 then
        some (generateMarketIntelligence (runLoop env c urls).2)
      else none := rfl

/-- The guard of market intelligence holds exactly for more than one
result, or one result carrying a non-empty competitors list. -/
theorem condMI_iff (results : List AnalysisResult) :
    condMI results = true ↔
      1 < results.length ∨
        (results.length = 1 ∧
          ∃ r ∈ results, (r.competitors.getD []) ≠ []) := by
  cases results with
  | nil => simp [condMI]
  | cons r rest =>
    cases rest with
    | nil =>
      simp only [condMI, List.length_cons, List.length_nil, List.head?_cons]
      constructor
      · intro h
        rw [Bool.or_eq_true, Bool.and_eq_true] at h
        rcases h with h | ⟨_, h⟩
        · exact absurd (of_decide_eq_true h) (by omega)
        · refine Or.inr ⟨by trivial, r, List.mem_cons_self r [], ?_⟩
          have := of_decide_eq_true h
          exact List.length_pos.mp this
      · rintro (h | ⟨_, r2, hr2, hne⟩)
        · omega
        · rcases List.mem_cons.mp hr2 with rfl | h2
          · rw [Bool.or_eq_true, Bool.and_eq_true]
            exact Or.inr ⟨by decide, decide_eq_true
              (List.length_pos.mpr hne)⟩
          · cases h2
    | cons r2 rest2 =>
      simp only [condMI, List.length_cons]
      constructor
      · intro _
        left
        omega
      · intro _
        rw [Bool.or_eq_true]
        left
        exact decide_eq_true (by omega)

/-- C5: corrected (amended form).  The response carries market
intelligence exactly when more than one primary result exists, or exactly
one exists and its competitors list is present and non-empty — whether or
not any of those competitors was analyzed successfully.  The claim's
requirement of a successfully analyzed competitor is refuted by the
counterexample. -/
theorem mi_condition_characterization (env : Env) (c : Cache)
    (urls : List String) :
    ((runPOST env c urls).2.marketIntelligence).isSome = true ↔
      1 < (runPOST env c urls).2.results.length ∨
        ((runPOST env c urls).2.results.length = 1 ∧
          ∃ r ∈ (runPOST env c urls).2.results,
            (r.competitors.getD []) ≠ []) := by
  rw [runPOST_results, runPOST_mi, ← condMI_iff]
  cases h : condMI (runLoop env c urls).2 with
  | true => simp [h]
  | false => simp [h]

/-- C5: counterexample.  With exactly one primary result whose only
competitor record failed analysis (success = false), the route still
computes market intelligence: the claim's only-if direction (at least
one successfully analyzed competitor) is false. -/
theorem mi_generated_without_successful_competitor :
    ((runPOST envMI [] [("u")]).2.marketIntelligence).isSome = true ∧
    (runPOST envMI [] [("u")]).2.results.length = 1 ∧
    ∀ r ∈ (runPOST envMI [] [("u")]).2.results,
      ∀ comp ∈ r.competitors.getD [], comp.success = false := by
  refine ⟨by decide, by decide, by decide⟩

/-- C5: witness.  Two requested URLs always give two results, so the
response carries market intelligence, through the theorem. -/
theorem mi_condition_characterization_witness :
    ((runPOST envFail [] [("u"), ("v")]).2.marketIntelligence).isSome =
      true :=
  (mi_condition_characterization envFail [] [("u"), ("v")]).mpr
    (Or.inl (by decide))

/-- C7: confirmed.  When the cache misses and the primary stage fails,
the loop records the degraded placeholder (empty entities, empty search
phrase, the failure message in the summary, empty competitors) and keeps
going: the batch still yields one result per URL. -/
theorem primary_failure_degrades (env : Env) (c : Cache)
    (url msg : String) (urls : List String)
    (hmiss : (getFromCache env.now c (cacheKey url)).1 = none)
    (herr : env.primary url = Except.error msg) :
    (processUrl env c url).2 = degradedResult url msg ∧
    (runLoop env c (url :: urls)).2 =
      degradedResult url msg ::
        (runLoop env (processUrl env c url).1 urls).2 ∧
    (runLoop env c (url :: urls)).2.length = urls.length + 1 := by
  have hstep : (processUrl env c url).2 = degradedResult url msg := by
    rw [processUrl]
    simp only [hmiss, herr]
  refine ⟨hstep, ?_, ?_⟩
  · rw [runLoop]
    simp only [hstep]
  · rw [runLoop]
    simp only [List.length_cons, runLoop_length]

/-- C7: witness.  The degraded record and the preserved batch length for
a concrete failing oracle, through the theorem. -/
theorem primary_failure_degrades_witness :
    (processUrl envFail [] ("u")).2 =
      degradedResult ("u") ("HTTP 404") ∧
    (runLoop envFail [] [("u"), ("v")]).2.length = 2 :=
  ⟨(primary_failure_degrades envFail [] ("u") ("HTTP 404") [("v")]
      (by decide) rfl).1,
    (primary_failure_degrades envFail [] ("u") ("HTTP 404") [("v")]
      (by decide) rfl).2.2⟩

/-- C9: corrected (amended form).  On a cache miss with a successful
primary stage, the cache afterwards holds exactly the five-field record
(url, entities, searchPhrase, summary, originalContent — no competitors
field, by construction of CachedRecord); the returned result is a copy
agreeing with that record on all five fields; and the returned copy
additionally carries a competitors list exactly when discovery was
requested, the credential configured and discovery succeeded.  The
cached-to-returned containment is therefore not always strict: the
counterexample shows equality when competitor attachment is skipped. -/
theorem cached_record_subset_of_returned (env : Env) (c : Cache)
    (url : String) (pa : PrimaryAnalysis)
    (hmiss : (getFromCache env.now c (cacheKey url)).1 = none)
    (hok : env.primary url = Except.ok pa) :
    cacheGetEntry (processUrl env c url).1 (cacheKey url) =
      some ⟨mkCached url pa, env.now⟩ ∧
    sharesFields (mkCached url pa) (processUrl env c url).2 ∧
    ((processUrl env c url).2.competitors).isSome =
      (env.shouldFindCompetitors && env.serpConfigured &&
        match env.discover pa.searchPhrase with
        | Except.ok _ => true
        | Except.error _ => false) := by
  have hp : processUrl env c url =
      (setCache env.now (getFromCache env.now c (cacheKey url)).2
        (cacheKey url) (mkCached url pa),
        attachCompetitors env (mkCached url pa)) := by
    rw [processUrl]
    simp only [hmiss, hok]
  rw [hp]
  refine ⟨?_, ?_, ?_⟩
  · rw [setCache, cacheGetEntry, if_pos rfl]
  · rw [attachCompetitors]
    cases hb : env.shouldFindCompetitors && env.serpConfigured with
    | false =>
      simp only [Bool.false_eq_true, if_neg, reduceIte]
      exact ⟨rfl, rfl, rfl, rfl, rfl⟩
    | true =>
      simp only [if_pos rfl, reduceIte]
      cases hd : env.discover (mkCached url pa).searchPhrase with
      | ok stubs => exact ⟨rfl, rfl, rfl, rfl, rfl⟩
      | error msg => exact ⟨rfl, rfl, rfl, rfl, rfl⟩
  · rw [attachCompetitors]
    cases hb : env.shouldFindCompetitors && env.serpConfigured with
    | false => simp [hb, baseResult]
    | true =>
      have hps : (mkCached url pa).searchPhrase = pa.searchPhrase := rfl
      rw [hps]
      cases hd : env.discover pa.searchPhrase with
      | ok stubs => simp [hb, hd, baseResult]
      | error msg => simp [hb, hd, baseResult]

/-- C9: counterexample.  With competitor discovery not requested, the
returned result carries no competitors field at all: it coincides with
the cached record on every field and holds nothing more, so the cached
copy is not a strict subset of the returned copy. -/
theorem cached_not_strict_subset_when_disabled :
    sharesFields (mkCached ("u") paW) (processUrl envNoComp [] ("u")).2 ∧
    (processUrl envNoComp [] ("u")).2.competitors = none := by
  refine ⟨by decide, by decide⟩

/-- C9: witness.  A run that does attach competitors: field agreement and
the presence of the attached list, through the theorem. -/
theorem cached_record_subset_of_returned_witness :
    sharesFields (mkCached ("u") paW) (processUrl envMI [] ("u")).2 ∧
    ((processUrl envMI [] ("u")).2.competitors).isSome = true :=
  ⟨(cached_record_subset_of_returned envMI [] ("u") paW (by decide)
      rfl).2.1,
    ((cached_record_subset_of_returned envMI [] ("u") paW (by decide)
      rfl).2.2).trans (by decide)⟩

/-- C10: confirmed.  successfulAnalyses counts exactly the results whose
entities list is non-empty: degraded placeholders carry an empty entities
list, and attaching competitor data never changes a result's own entities
(so zero-entity successes and failures are equally excluded, and
competitor records never inflate the count). -/
theorem successful_analyses_count (env : Env) (c : Cache)
    (urls : List String) :
    (runPOST env c urls).2.metadata.successfulAnalyses =
      ((runPOST env c urls).2.results.filter
        (fun r => !r.entities.isEmpty)).length ∧
    (∀ url msg, (degradedResult url msg).entities = []) ∧
    (∀ cr, (attachCompetitors env cr).entities = cr.entities) := by
  refine ⟨?_, fun url msg => rfl, ?_⟩
  · have h1 : (runPOST env c urls).2.metadata.successfulAnalyses =
        ((runLoop env c urls).2.filter
          (fun r => decide (0 < r.entities.length))).length := rfl
    rw [h1, runPOST_results]
    congr 1
    apply List.filter_congr
    intro r _
    cases hr : r.entities with
    | nil => simp
    | cons e es => simp
  · intro cr
    rw [attachCompetitors]
    cases hb : env.shouldFindCompetitors && env.serpConfigured with
    | false => simp [hb, baseResult]
    | true =>
      cases hd : env.discover cr.searchPhrase with
      | ok stubs => simp [hb, hd, baseResult]
      | error msg => simp [hb, hd, baseResult]

end Qfology
